import Mathlib

/-!
Verification of the Nature Counter journal pipeline (`pipeline_project.py`).

The development shallowly embeds the pure core of the pipeline:

* strings are `List Char` (ASCII is the domain of interest; Python's
  `str.upper`/`str.strip` agree with the embedded functions on ASCII);
* a pandas cell is a `Val` (`vnone` models a null/missing cell, i.e. Python
  `None` / pandas `NaN`; `vnum` models a float as an exact rational; `vdt`
  models a datetime carrying its canonical string rendering);
* a `DataFrame` is a `Frame`: a column list plus rows of association lists;
* fallible code (`clean` can raise `KeyError`) returns `Except`.

Definitions are translated from the source; the one spec-modelled definition
(`resolveSpec`, for the CountryResolver refinement claim) is marked as such.
-/

/-- Embedded string type: a list of characters. -/
abbrev Str := List Char

/-- Turn a Lean string literal into the embedded string type. -/
def S (s : String) : Str := s.data

/-- Whitespace characters stripped by Python `str.strip()` and matched by the
regex class used in `clean` (ASCII subset). -/
def isWs (c : Char) : Bool :=
  c = ' ' || c = '\t' || c = '\n' || c = '\r' || c = '\x0b' || c = '\x0c'

/-- Characters stripped by `.str.strip(" ,")` in `clean`. -/
def isSC (c : Char) : Bool := c = ' ' || c = ','

/-- ASCII letters, the class `[A-Za-z]` used by the token split in
`decide_country`. -/
def isAlphaChar (c : Char) : Bool :=
  ('A' ≤ c && c ≤ 'Z') || ('a' ≤ c && c ≤ 'z')

/-- ASCII uppercase map (table-based, `a`-`z` only), modelling Python
`str.upper` on the ASCII domain. -/
def upChar (c : Char) : Char :=
  if c = 'a' then 'A' else if c = 'b' then 'B' else if c = 'c' then 'C'
  else if c = 'd' then 'D' else if c = 'e' then 'E' else if c = 'f' then 'F'
  else if c = 'g' then 'G' else if c = 'h' then 'H' else if c = 'i' then 'I'
  else if c = 'j' then 'J' else if c = 'k' then 'K' else if c = 'l' then 'L'
  else if c = 'm' then 'M' else if c = 'n' then 'N' else if c = 'o' then 'O'
  else if c = 'p' then 'P' else if c = 'q' then 'Q' else if c = 'r' then 'R'
  else if c = 's' then 'S' else if c = 't' then 'T' else if c = 'u' then 'U'
  else if c = 'v' then 'V' else if c = 'w' then 'W' else if c = 'x' then 'X'
  else if c = 'y' then 'Y' else if c = 'z' then 'Z' else c

/-- Uppercase an embedded string. -/
def upperS (s : Str) : Str := s.map upChar

/-- Python `str.strip()`: drop whitespace from both ends. -/
def trimWs (s : Str) : Str :=
  ((s.dropWhile isWs).reverse.dropWhile isWs).reverse

/-- Python `str.strip(" ,")`: drop spaces and commas from both ends
(line 208 of the source). -/
def stripSC (s : Str) : Str :=
  ((s.dropWhile isSC).reverse.dropWhile isSC).reverse

/-- `re.split(r"[^A-Za-z]+", s)` followed by dropping empty pieces:
accumulator-based extraction of the maximal alphabetic runs of `s`.
`cur` holds the (reversed) current run. -/
def alphaTokensAcc (cur : Str) : Str → List Str
  | [] => if cur = [] then [] else [cur.reverse]
  | c :: cs =>
      if isAlphaChar c then alphaTokensAcc (c :: cur) cs
      else if cur = [] then alphaTokensAcc [] cs
      else cur.reverse :: alphaTokensAcc [] cs

/-- The non-empty alphabetic tokens of `s`, in order. -/
def alphaTokens (s : Str) : List Str := alphaTokensAcc [] s

/-- `US_STATES` from the source (lines 33-36): 50 states + DC + PR + GU + VI. -/
def usStates : List Str :=
  (["AL","AK","AZ","AR","CA","CO","CT","DC","DE","FL","GA","HI","ID","IL","IN",
    "IA","KS","KY","LA","MA","MD","ME","MI","MN","MO","MS","MT",
    "NC","ND","NE","NH","NJ","NM","NV","NY","OH","OK","OR","PA","RI","SC","SD",
    "TN","TX","UT","VA","VT","WA","WI","WV","WY","PR","GU","VI"]).map S

/-- Recognized US spellings for the explicit-country tier of
`decide_country` (line 110 of the source). -/
def usVariants : List Str :=
  (["US","USA","U.S.","UNITED STATES","UNITED STATES OF AMERICA"]).map S

/-- `decide_country(address, state, loc_country)` (source lines 107-119),
translated clause by clause:
the explicit country is stripped; if non-empty it is normalized to `"USA"`
when (uppercased) it is a recognized US spelling and returned unchanged
otherwise; else a US state/territory code in the stripped+uppercased `state`
wins; else the uppercased address is split on runs of non-letters and any
token equal to a US code wins; else the empty string is returned. -/
def decide_country (address state loc_country : Str) : Str :=
  let c := trimWs loc_country
  if c ≠ [] then
    if upperS c ∈ usVariants then S "USA" else c
  else if upperS (trimWs state) ∈ usStates then S "USA"
  else if (alphaTokens (upperS address)).any (fun t => decide (t ∈ usStates)) then S "USA"
  else []

/-- Modelled from the spec: the CountryResolver tiered policy of §4.1, stated
in the spec's own order of operations — in particular tier (c) tokenizes the
*raw* address and uppercases each token, whereas the source uppercases the
whole address before splitting.  Used only to compare against
`decide_country`. -/
def resolveSpec (address state explicitCountry : Str) : Str :=
  let c := trimWs explicitCountry
  if c ≠ [] then
    if upperS c ∈ usVariants then S "USA" else c
  else if upperS (trimWs state) ∈ usStates then S "USA"
  else if ((alphaTokens address).map upperS).any (fun t => decide (t ∈ usStates)) then S "USA"
  else []

/-- Run collapsing as a one-pass state machine (structurally recursive so
the kernel can evaluate it).  The state is the pending whitespace run:
`none` — not inside one; `some (c, false)` — a run of exactly one character
`c` so far; `some (c, true)` — a run of two or more characters (which will
be emitted as a single space). -/
def collapseAcc : Option (Char × Bool) → Str → Str
  | none, [] => []
  | some (c, false), [] => [c]
  | some (_, true), [] => [' ']
  | none, c :: cs =>
      if isWs c then collapseAcc (some (c, false)) cs
      else c :: collapseAcc none cs
  | some (p, false), c :: cs =>
      if isWs c then collapseAcc (some (p, true)) cs
      else p :: c :: collapseAcc none cs
  | some (p, true), c :: cs =>
      if isWs c then collapseAcc (some (p, true)) cs
      else ' ' :: c :: collapseAcc none cs

/-- `place_src.str.replace(r"\s{2,}", " ", regex=True)` (source line 208):
every maximal run of two or more whitespace characters becomes a single
space; single whitespace characters are kept as they are. -/
def collapseWs (s : Str) : Str := collapseAcc none s

/-- Consume leading decimal digits: value, number of digits, rest. -/
def takeDigits : Str → Nat × Nat × Str
  | [] => (0, 0, [])
  | c :: cs =>
    if '0' ≤ c ∧ c ≤ '9' then
      let r := takeDigits cs
      ((c.toNat - 48) * 10 ^ r.2.1 + r.1, r.2.1 + 1, r.2.2)
    else (0, 0, c :: cs)

/-- Exponent digits at the end of a float literal: all of `s` must be
digits, at least one. -/
def parseDigitsEnd (s : Str) : Option Nat :=
  let t := takeDigits s
  if 0 < t.2.1 ∧ t.2.2 = [] then some t.1 else none

/-- Signed exponent of a float literal. -/
def parseExpOf (s : Str) : Option Int :=
  match s with
  | '+' :: r => (parseDigitsEnd r).map Int.ofNat
  | '-' :: r => (parseDigitsEnd r).map (fun n => -(n : Int))
  | r => (parseDigitsEnd r).map Int.ofNat

/-- The float grammar accepted by `pd.to_numeric(..., errors="coerce")` on a
string cell, modelled as exact rationals: optional surrounding whitespace,
optional sign, integer and/or fractional digits, optional exponent.
Strings outside the grammar parse to `none` (coerced to null). -/
def parseNum (s : Str) : Option ℚ :=
  let t := trimWs s
  let sr : ℚ × Str :=
    match t with
    | '-' :: r => (-1, r)
    | '+' :: r => (1, r)
    | r => (1, r)
  let d1 := takeDigits sr.2
  let fr : Nat × Nat × Str :=
    match d1.2.2 with
    | '.' :: r => takeDigits r
    | r => (0, 0, r)
  if d1.2.1 = 0 ∧ fr.2.1 = 0 then none
  else
    let mant : ℚ := sr.1 * ((d1.1 : ℚ) + (fr.1 : ℚ) / 10 ^ fr.2.1)
    match fr.2.2 with
    | [] => some mant
    | 'e' :: r => (parseExpOf r).map (fun e => mant * 10 ^ e)
    | 'E' :: r => (parseExpOf r).map (fun e => mant * 10 ^ e)
    | _ => none

/-- Lowercase the six uppercase hex letters (ObjectId's canonical string form
is lowercase hex). -/
def lowHexChar (c : Char) : Char :=
  if c = 'A' then 'a' else if c = 'B' then 'b' else if c = 'C' then 'c'
  else if c = 'D' then 'd' else if c = 'E' then 'e' else if c = 'F' then 'f' else c

/-- Hexadecimal digit (either case). -/
def isHexDigitC (c : Char) : Bool :=
  ('0' ≤ c && c ≤ '9') || ('a' ≤ c && c ≤ 'f') || ('A' ≤ c && c ≤ 'F')

/-- `bson.ObjectId(s)` on a string: accepts exactly 24 hex characters and
normalizes to lowercase; anything else raises (here: `none`).  An ObjectId is
represented by its canonical lowercase-hex string; byte order coincides with
lexicographic order on that form. -/
def parseOid (s : Str) : Option Str :=
  if s.length = 24 ∧ s.all isHexDigitC then some (s.map lowHexChar) else none

/-- Lexicographic strict order on embedded strings, by `Char` code points.
On equal-length lowercase-hex strings this is exactly ObjectId byte order. -/
def strLt : Str → Str → Bool
  | _, [] => false
  | [], _ :: _ => true
  | a :: as, b :: bs => if a < b then true else if b < a then false else strLt as bs

/-- `.round(6)` on a float cell, modelled on exact rationals. -/
def round6 (q : ℚ) : ℚ := ((round (q * 1000000) : ℤ) : ℚ) / 1000000

/-- A pandas cell.  `vnone` models a null/missing cell (Python `None`,
pandas `NaN`); `vnum` a float as an exact rational; `vdt` a datetime
carrying its canonical (isoformat) string rendering. -/
inductive Val where
  | vnone : Val
  | vstr : Str → Val
  | vnum : ℚ → Val
  | vdt : Str → Val
deriving DecidableEq, Repr

/-- A row: an association list from column name to cell. -/
abbrev Row := List (Str × Val)

/-- A data frame: ordered column list plus rows. -/
structure Frame where
  cols : List Str
  rows : List Row
deriving DecidableEq, Repr

/-- Read a cell from a row; an absent key is a null cell (pandas `NaN`). -/
def cellR : Row → Str → Val
  | [], _ => .vnone
  | (k, v) :: t, c => if k = c then v else cellR t c

/-- `df.get(c, default)` read per row: the cell when the column exists in the
frame, the default value otherwise. -/
def cellD (cols : List Str) (r : Row) (c : Str) (d : Val) : Val :=
  if c ∈ cols then cellR r c else d

/-- Decimal rendering of a rational (digits, sign, point only — standing in
for Python's float-to-string; no claim depends on the exact digits). -/
def ratStr (q : ℚ) : Str :=
  (if q < 0 then ['-'] else []) ++ Nat.toDigits 10 (⌊|q|⌋).toNat
    ++ '.' :: (Nat.toDigits 10 (1000000 + ((|q| - ⌊|q|⌋) * 1000000).floor.toNat)).drop 1

/-- `.astype(str)` on a cell.  A null cell renders as `"nan"` as pandas does. -/
def pyStrOfVal : Val → Str
  | .vnone => S "nan"
  | .vstr s => s
  | .vnum q => ratStr q
  | .vdt s => s

/-- `_to_str_timestamp` (source lines 182-188): `None` becomes the empty
string, a datetime its isoformat, anything else its plain string form. -/
def toStrTs : Val → Str
  | .vnone => []
  | .vstr s => s
  | .vnum q => ratStr q
  | .vdt s => s

/-- `pd.to_numeric(errors="coerce")` on a cell: numbers pass through, strings
are parsed by the float grammar, anything unparseable becomes null. -/
def toNumericV : Val → Val
  | .vnum q => .vnum q
  | .vstr s => match parseNum s with
               | some q => .vnum q
               | none => .vnone
  | _ => .vnone

/-- `.round(6)` on a cell: rounds numbers, leaves null untouched. -/
def roundV : Val → Val
  | .vnum q => .vnum (round6 q)
  | v => v

/-- `FINAL_COLS` (source lines 38-41): the fixed 14-column output schema. -/
def FINAL_COLS : List Str :=
  [S "journal_id", S "User Name", S "User email", S "Timestamp", S "End Date Time",
   S "n_Name", S "City", S "State", S "Zip", S "Country", S "n_Place",
   S "n_Lati", S "n_Long", S "n_park_nbr"]

/-- The eight output columns `clean` passes through unmodified. -/
def passCols : List Str :=
  [S "journal_id", S "User Name", S "User email", S "n_Name", S "City",
   S "State", S "Zip", S "n_park_nbr"]

/-- A row's `journal_id` cell, the de-duplication key of `clean`. -/
def keyJ (r : Row) : Val := cellR r (S "journal_id")

/-- `drop_duplicates(subset=["journal_id"], keep="last")`: keep a row exactly
when no later row has the same `journal_id` cell, preserving order. -/
def dedupLast : List Row → List Row
  | [] => []
  | r :: rs =>
    if rs.any (fun x => decide (keyJ x = keyJ r)) then dedupLast rs
    else r :: dedupLast rs

/-- `df.get("Address", Series(""))` then `.astype(str)`, per row
(source line 195). -/
def addrSrc (cols : List Str) (r : Row) : Str :=
  pyStrOfVal (cellD cols r (S "Address") (.vstr []))

/-- `df.get("n_Place", Series(""))` then `.astype(str)`, per row
(source line 196). -/
def placeSrc (cols : List Str) (r : Row) : Str :=
  pyStrOfVal (cellD cols r (S "n_Place") (.vstr []))

/-- `addr_src.where(addr_src.str.len() > 0, place_src)` (source line 197):
the address when non-empty, else the place string. -/
def addrCheck (cols : List Str) (r : Row) : Str :=
  if 0 < (addrSrc cols r).length then addrSrc cols r else placeSrc cols r

/-- The `State` column as a string, per row (source line 199). -/
def stateStr (cols : List Str) (r : Row) : Str :=
  pyStrOfVal (cellD cols r (S "State") (.vstr []))

/-- The `LocCountry` column as a string, per row (source line 200). -/
def locCStr (cols : List Str) (r : Row) : Str :=
  pyStrOfVal (cellD cols r (S "LocCountry") (.vstr []))

/-- The recomputed `Country` cell (source lines 201-204). -/
def countryOf (cols : List Str) (r : Row) : Str :=
  decide_country (addrCheck cols r) (stateStr cols r) (locCStr cols r)

/-- The `n_Lati` cell after `to_numeric(...).round(6)` (source line 206);
an absent column broadcasts null. -/
def latV (cols : List Str) (r : Row) : Val :=
  roundV (toNumericV (cellD cols r (S "n_Lati") .vnone))

/-- The `n_Long` cell after `to_numeric(...).round(6)` (source line 207). -/
def lonV (cols : List Str) (r : Row) : Val :=
  roundV (toNumericV (cellD cols r (S "n_Long") .vnone))

/-- The cleaned `n_Place` cell (source line 208): collapse whitespace runs,
then strip spaces and commas from the ends. -/
def placeClean (cols : List Str) (r : Row) : Str :=
  stripSC (collapseWs (placeSrc cols r))

/-- The stringified `Timestamp` cell (source line 210). -/
def tsStr (cols : List Str) (r : Row) : Str :=
  toStrTs (cellD cols r (S "Timestamp") .vnone)

/-- The stringified `End Date Time` cell (source line 211). -/
def edtStr (cols : List Str) (r : Row) : Str :=
  toStrTs (cellD cols r (S "End Date Time") .vnone)

/-- A passed-through cell: the original value when the column exists, the
empty string otherwise (the `df[c] = ""` default loop, source lines 213-215). -/
def passV (cols : List Str) (r : Row) (c : Str) : Val :=
  cellD cols r c (.vstr [])

/-- One output row of `clean`, in `FINAL_COLS` order (the row-level content
of source lines 195-216). -/
def buildRow (cols : List Str) (r : Row) : Row :=
  [(S "journal_id", passV cols r (S "journal_id")),
   (S "User Name", passV cols r (S "User Name")),
   (S "User email", passV cols r (S "User email")),
   (S "Timestamp", .vstr (tsStr cols r)),
   (S "End Date Time", .vstr (edtStr cols r)),
   (S "n_Name", passV cols r (S "n_Name")),
   (S "City", passV cols r (S "City")),
   (S "State", passV cols r (S "State")),
   (S "Zip", passV cols r (S "Zip")),
   (S "Country", .vstr (countryOf cols r)),
   (S "n_Place", .vstr (placeClean cols r)),
   (S "n_Lati", latV cols r),
   (S "n_Long", lonV cols r),
   (S "n_park_nbr", passV cols r (S "n_park_nbr"))]

/-- `clean(df)` (source lines 190-216).  An empty frame yields the empty
`FINAL_COLS` frame.  A non-empty frame without a `Timestamp` or
`End Date Time` column raises `KeyError` at line 210/211 (`df["Timestamp"]`
is a direct indexing, unlike the guarded `df.get` used for every other
column) — modelled as `Except.error` naming the missing key.  Otherwise
every row is transformed, the frame is restricted to `FINAL_COLS`, and
de-duplicated by `journal_id` keeping the last occurrence. -/
def clean (df : Frame) : Except Str Frame :=
  if df.rows = [] ∨ df.cols = [] then .ok ⟨FINAL_COLS, []⟩
  else if S "Timestamp" ∉ df.cols then .error (S "Timestamp")
  else if S "End Date Time" ∉ df.cols then .error (S "End Date Time")
  else .ok ⟨FINAL_COLS, dedupLast (df.rows.map (buildRow df.cols))⟩

/-- What a second application of `clean` does to an already-cleaned row:
every cell is kept except `Country`, which is recomputed from the cleaned
`n_Place` and the `State` cell with an empty explicit country (the `Address`
and `LocCountry` auxiliary columns are not part of `clean`'s output). -/
def recountry (r : Row) : Row :=
  [(S "journal_id", cellR r (S "journal_id")),
   (S "User Name", cellR r (S "User Name")),
   (S "User email", cellR r (S "User email")),
   (S "Timestamp", cellR r (S "Timestamp")),
   (S "End Date Time", cellR r (S "End Date Time")),
   (S "n_Name", cellR r (S "n_Name")),
   (S "City", cellR r (S "City")),
   (S "State", cellR r (S "State")),
   (S "Zip", cellR r (S "Zip")),
   (S "Country", .vstr (decide_country (pyStrOfVal (cellR r (S "n_Place")))
      (pyStrOfVal (cellR r (S "State"))) [])),
   (S "n_Place", cellR r (S "n_Place")),
   (S "n_Lati", cellR r (S "n_Lati")),
   (S "n_Long", cellR r (S "n_Long")),
   (S "n_park_nbr", cellR r (S "n_park_nbr"))]

/-- `pd.concat([a, b], ignore_index=True)`: columns are the union in order
of first appearance, rows are `a`'s rows then `b`'s rows (source line 281:
existing snapshot first, newly cleaned rows second). -/
def concatF (a b : Frame) : Frame :=
  ⟨a.cols ++ b.cols.filter (fun c => decide (c ∉ a.cols)), a.rows ++ b.rows⟩

/-- The `journal_id` values of a snapshot that parse as ObjectIds
(source lines 223-228), in row order. -/
def parsedOids (snap : Frame) : List Str :=
  snap.rows.filterMap (fun r => parseOid (pyStrOfVal (cellR r (S "journal_id"))))

/-- The watermark resolver (source lines 218-232), from the downloaded
snapshot on: `None` when the snapshot is empty or has no `journal_id`
column; otherwise every `journal_id` cell is stringified and parsed as an
ObjectId, unparseable values are skipped, and the string form of the maximum
(by ObjectId order, Python `max`) is returned — `None` when nothing parses. -/
def load_watermark_from_drive_excel (snap : Frame) : Option Str :=
  if snap.rows = [] ∨ snap.cols = [] then none
  else if S "journal_id" ∉ snap.cols then none
  else
    match parsedOids snap with
    | [] => none
    | x :: xs => some (xs.foldl (fun a b => if strLt a b then b else a) x)

/-- A condition of the Mongo match filter built by `fetch`. -/
inductive Cond where
  | endTimeNe : Cond
  | idGt : Str → Cond
deriving DecidableEq, Repr

/-- The match filter built by `fetch` (source lines 234-240): always
`{end_time: {$ne: None}}`; additionally `{_id: {$gt: ObjectId(last_oid)}}`
when `last_oid` is truthy (non-`None`, non-empty) and parses as an ObjectId.
A truthy but unparseable `last_oid` is logged and ignored — no error, the
filter degrades to the full fetch. -/
def fetch_match (last_oid : Option Str) : List Cond :=
  match last_oid with
  | none => [.endTimeNe]
  | some s =>
    if s = [] then [.endTimeNe]
    else
      match parseOid s with
      | some o => [.endTimeNe, .idGt o]
      | none => [.endTimeNe]

/-- The outcome of one run: either nothing is uploaded, or the final merged
frame is uploaded as the whole-file replacement snapshot. -/
inductive RunOutcome where
  | noOp : RunOutcome
  | uploaded : Frame → RunOutcome
deriving DecidableEq, Repr

/-- The post-connectivity core of `run_once` (source lines 274-287),
parameterized by the frames the two I/O collaborators return: `fetched` is
the raw fetch result, `existing` the downloaded snapshot.  An empty fetch
returns early with no merge and no upload; otherwise the fetched rows are
cleaned, concatenated *after* the existing snapshot when that is non-empty,
re-cleaned, and uploaded. -/
def run_once_core (fetched existing : Frame) : Except Str RunOutcome :=
  if fetched.rows = [] ∨ fetched.cols = [] then .ok .noOp
  else
    Except.bind (clean fetched) (fun cleaned =>
      Except.bind (clean (if existing.rows = [] ∨ existing.cols = [] then cleaned
                          else concatF existing cleaned))
        (fun out => .ok (.uploaded out)))

/-- Two rows agree on every column other than `Country`. -/
def agreeOffCountry (r₁ r₂ : Row) : Prop :=
  ∀ c, c ≠ S "Country" → cellR r₁ c = cellR r₂ c

/-! ## Concrete frames used by witnesses and counterexamples -/

/-- The spec's watermark example snapshot: three parseable identities and one
unparseable `journal_id`. -/
def exSnap : Frame :=
  ⟨[S "journal_id"],
   [[(S "journal_id", Val.vstr (S "000000000000000000000001"))],
    [(S "journal_id", Val.vstr (S "000000000000000000000003"))],
    [(S "journal_id", Val.vstr (S "bad"))],
    [(S "journal_id", Val.vstr (S "000000000000000000000002"))]]⟩

/-- A raw fetched batch whose location carries the explicit country
`"Canada"`. -/
def rawCanada : Frame :=
  ⟨[S "journal_id", S "Timestamp", S "End Date Time", S "LocCountry"],
   [[(S "journal_id", Val.vstr (S "j1")), (S "LocCountry", Val.vstr (S "Canada"))]]⟩

/-- The row `clean` produces from `rawCanada`: `Country` is `"Canada"` by the
explicit-country tier. -/
def rowCanada : Row :=
  [(S "journal_id", Val.vstr (S "j1")),
   (S "User Name", Val.vstr []),
   (S "User email", Val.vstr []),
   (S "Timestamp", Val.vstr []),
   (S "End Date Time", Val.vstr []),
   (S "n_Name", Val.vstr []),
   (S "City", Val.vstr []),
   (S "State", Val.vstr []),
   (S "Zip", Val.vstr []),
   (S "Country", Val.vstr (S "Canada")),
   (S "n_Place", Val.vstr []),
   (S "n_Lati", Val.vnone),
   (S "n_Long", Val.vnone),
   (S "n_park_nbr", Val.vstr [])]

/-- `clean rawCanada`. -/
def cleanedCanada : Frame := ⟨FINAL_COLS, [rowCanada]⟩

/-- `rowCanada` after a second pass of `clean`: the explicit country is gone
and nothing else marks the row as US, so `Country` collapses to `""`. -/
def rowCanadaRecleaned : Row :=
  [(S "journal_id", Val.vstr (S "j1")),
   (S "User Name", Val.vstr []),
   (S "User email", Val.vstr []),
   (S "Timestamp", Val.vstr []),
   (S "End Date Time", Val.vstr []),
   (S "n_Name", Val.vstr []),
   (S "City", Val.vstr []),
   (S "State", Val.vstr []),
   (S "Zip", Val.vstr []),
   (S "Country", Val.vstr []),
   (S "n_Place", Val.vstr []),
   (S "n_Lati", Val.vnone),
   (S "n_Long", Val.vnone),
   (S "n_park_nbr", Val.vstr [])]

/-- An existing snapshot holding (an old version of) the same journal `"j1"`. -/
def exExisting : Frame :=
  ⟨FINAL_COLS, [[(S "journal_id", Val.vstr (S "j1"))]]⟩

/-- A non-empty frame without a `Timestamp` column. -/
def noTsFrame : Frame :=
  ⟨[S "journal_id"], [[(S "journal_id", Val.vstr (S "x"))]]⟩

/-- A sparse but cleanable frame: `Timestamp` and `End Date Time` exist,
`journal_id` does not, and the coordinate cell is unparseable. -/
def sparseFrame : Frame :=
  ⟨[S "Timestamp", S "End Date Time", S "n_Lati"],
   [[(S "Timestamp", Val.vstr (S "t")), (S "End Date Time", Val.vstr (S "e")),
     (S "n_Lati", Val.vstr (S "abc"))]]⟩

/-- A single-journal frame whose `Country` cell is `"X"`. -/
def rowCtryX : Row := [(S "journal_id", Val.vstr (S "a")), (S "Country", Val.vstr (S "X"))]

/-- The same row with `Country` replaced by `"Y"`. -/
def rowCtryY : Row := [(S "journal_id", Val.vstr (S "a")), (S "Country", Val.vstr (S "Y"))]

/-- Column list shared by the two country-differing frames. -/
def ctryCols : List Str := [S "journal_id", S "Timestamp", S "End Date Time", S "Country"]

/-- A frame with a duplicated `journal_id` (`"a"`, `"b"`, `"a"` in order). -/
def dupFrame : Frame :=
  ⟨[S "journal_id", S "Timestamp", S "End Date Time"],
   [[(S "journal_id", Val.vstr (S "a")), (S "Timestamp", Val.vstr (S "t1"))],
    [(S "journal_id", Val.vstr (S "b")), (S "Timestamp", Val.vstr (S "t2"))],
    [(S "journal_id", Val.vstr (S "a")), (S "Timestamp", Val.vstr (S "t3"))]]⟩

/-! ## Character and token lemmas -/

theorem isAlphaChar_upChar (c : Char) : isAlphaChar (upChar c) = isAlphaChar c := by
  by_cases h1 : c = 'a'
  · subst h1; rfl
  by_cases h2 : c = 'b'
  · subst h2; rfl
  by_cases h3 : c = 'c'
  · subst h3; rfl
  by_cases h4 : c = 'd'
  · subst h4; rfl
  by_cases h5 : c = 'e'
  · subst h5; rfl
  by_cases h6 : c = 'f'
  · subst h6; rfl
  by_cases h7 : c = 'g'
  · subst h7; rfl
  by_cases h8 : c = 'h'
  · subst h8; rfl
  by_cases h9 : c = 'i'
  · subst h9; rfl
  by_cases h10 : c = 'j'
  · subst h10; rfl
  by_cases h11 : c = 'k'
  · subst h11; rfl
  by_cases h12 : c = 'l'
  · subst h12; rfl
  by_cases h13 : c = 'm'
  · subst h13; rfl
  by_cases h14 : c = 'n'
  · subst h14; rfl
  by_cases h15 : c = 'o'
  · subst h15; rfl
  by_cases h16 : c = 'p'
  · subst h16; rfl
  by_cases h17 : c = 'q'
  · subst h17; rfl
  by_cases h18 : c = 'r'
  · subst h18; rfl
  by_cases h19 : c = 's'
  · subst h19; rfl
  by_cases h20 : c = 't'
  · subst h20; rfl
  by_cases h21 : c = 'u'
  · subst h21; rfl
  by_cases h22 : c = 'v'
  · subst h22; rfl
  by_cases h23 : c = 'w'
  · subst h23; rfl
  by_cases h24 : c = 'x'
  · subst h24; rfl
  by_cases h25 : c = 'y'
  · subst h25; rfl
  by_cases h26 : c = 'z'
  · subst h26; rfl
  unfold upChar
  rw [if_neg h1, if_neg h2, if_neg h3, if_neg h4, if_neg h5, if_neg h6, if_neg h7, if_neg h8, if_neg h9, if_neg h10, if_neg h11, if_neg h12, if_neg h13, if_neg h14, if_neg h15, if_neg h16, if_neg h17, if_neg h18, if_neg h19, if_neg h20, if_neg h21, if_neg h22, if_neg h23, if_neg h24, if_neg h25, if_neg h26]

theorem alphaTokensAcc_nil (cur : Str) :
    alphaTokensAcc cur [] = if cur = [] then [] else [cur.reverse] := rfl

theorem alphaTokensAcc_cons (cur : Str) (c : Char) (cs : Str) :
    alphaTokensAcc cur (c :: cs) =
      if isAlphaChar c then alphaTokensAcc (c :: cur) cs
      else if cur = [] then alphaTokensAcc [] cs
      else cur.reverse :: alphaTokensAcc [] cs := rfl

theorem upperS_nil_iff (cur : Str) : upperS cur = [] ↔ cur = [] := by
  simp [upperS, List.map_eq_nil_iff]

theorem alphaTokensAcc_upperS (s : Str) : ∀ cur : Str,
    alphaTokensAcc (upperS cur) (upperS s) = (alphaTokensAcc cur s).map upperS := by
  induction s with
  | nil =>
    intro cur
    show alphaTokensAcc (upperS cur) [] = _
    rw [alphaTokensAcc_nil, alphaTokensAcc_nil]
    by_cases h : cur = []
    · rw [if_pos ((upperS_nil_iff cur).mpr h), if_pos h]
      rfl
    · rw [if_neg (fun hh => h ((upperS_nil_iff cur).mp hh)), if_neg h]
      simp [upperS, List.map_reverse]
  | cons c cs ih =>
    intro cur
    show alphaTokensAcc (upperS cur) (upChar c :: upperS cs) = _
    rw [alphaTokensAcc_cons, alphaTokensAcc_cons, isAlphaChar_upChar]
    by_cases hc : isAlphaChar c
    · rw [if_pos hc, if_pos hc]
      exact ih (c :: cur)
    · rw [if_neg hc, if_neg hc]
      by_cases h : cur = []
      · rw [if_pos ((upperS_nil_iff cur).mpr h), if_pos h]
        exact ih []
      · rw [if_neg (fun hh => h ((upperS_nil_iff cur).mp hh)), if_neg h]
        rw [List.map_cons]
        rw [show upperS cur.reverse = (upperS cur).reverse from List.map_reverse _ _]
        exact congrArg _ (ih [])

theorem alphaTokens_upperS (s : Str) :
    alphaTokens (upperS s) = (alphaTokens s).map upperS :=
  alphaTokensAcc_upperS s []

/-- Claim C4: `decide_country` implements the spec's tiered CountryResolver
policy, first match winning: a non-empty trimmed explicit country is
normalized to `"USA"` on the recognized US spellings and passed through
(trimmed) otherwise, regardless of state and address; else a US
state/territory code as the trimmed+uppercased state yields `"USA"`; else a
US code among the address's letter-run tokens (uppercased) yields `"USA"`;
else the empty string. -/
theorem decide_country_follows_tiers (a s c : Str) :
    decide_country a s c = resolveSpec a s c := by
  unfold decide_country resolveSpec
  rw [alphaTokens_upperS, List.any_map]

/-! ## Fetch filter (C5) and empty-fetch early exit (C8) -/

/-- Claim C5: the match filter always requires `end_time` non-null; it
contains an identity lower bound exactly when the watermark is present and
parses as an ObjectId; and a present but unparseable watermark produces no
error — the filter is exactly the `end_time` condition, a full fetch. -/
theorem fetch_match_policy (w : Option Str) :
    Cond.endTimeNe ∈ fetch_match w ∧
    (∀ o, Cond.idGt o ∈ fetch_match w ↔ ∃ s, w = some s ∧ parseOid s = some o) ∧
    (∀ s, w = some s → parseOid s = none → fetch_match w = [Cond.endTimeNe]) := by
  match w with
  | none =>
    refine ⟨by simp [fetch_match], fun o => ?_, fun s h => nomatch h⟩
    simp [fetch_match]
  | some s =>
    by_cases hs : s = []
    · subst hs
      refine ⟨by simp [fetch_match], fun o => ?_, fun s h hp => by simp [fetch_match]⟩
      constructor
      · intro h
        simp [fetch_match] at h
      · rintro ⟨s', hs', hp⟩
        cases hs'
        rw [show parseOid [] = none from rfl] at hp
        cases hp
    · cases hp : parseOid s with
      | none =>
        refine ⟨by simp [fetch_match, hs, hp], fun o => ?_, fun s' h hp' => by simp [fetch_match, hs, hp]⟩
        constructor
        · intro h
          simp [fetch_match, hs, hp] at h
        · rintro ⟨s', hs', hp'⟩
          cases hs'
          rw [hp] at hp'
          cases hp'
      | some o₀ =>
        refine ⟨by simp [fetch_match, hs, hp], fun o => ?_, fun s' h hp' => ?_⟩
        · constructor
          · intro h
            simp [fetch_match, hs, hp] at h
            exact ⟨s, rfl, by rw [hp, h]⟩
          · rintro ⟨s', hs', hp'⟩
            cases hs'
            rw [hp] at hp'
            cases hp'
            simp [fetch_match, hs, hp]
        · cases h
          rw [hp] at hp'
          cases hp'

/-- Witness for C5 at the concrete unparseable watermark `"bad"`: the filter
degrades to the bare `end_time` condition and carries no identity bound. -/
theorem fetch_match_policy_witness :
    fetch_match (some (S "bad")) = [Cond.endTimeNe] ∧
    Cond.endTimeNe ∈ fetch_match (some (S "bad")) :=
  ⟨(fetch_match_policy (some (S "bad"))).2.2 (S "bad") rfl (by decide),
   (fetch_match_policy (some (S "bad"))).1⟩

/-- Claim C8: when the fetch returns zero rows, the run ends at the early
`NoOp` exit — no merge is formed and nothing is uploaded, so the persisted
snapshot is left untouched. -/
theorem empty_fetch_is_noop (fetched existing : Frame) (h : fetched.rows = []) :
    run_once_core fetched existing = .ok .noOp := by
  unfold run_once_core
  rw [if_pos (Or.inl h)]

/-- Witness for C8: a concrete empty fetch against a concrete non-empty
snapshot ends in `NoOp`. -/
theorem empty_fetch_is_noop_witness :
    run_once_core ⟨FINAL_COLS, []⟩ ⟨FINAL_COLS, [[(S "journal_id", Val.vstr (S "x"))]]⟩
      = .ok .noOp :=
  empty_fetch_is_noop _ _ rfl

/-! ## ObjectId order and the watermark resolver (C3) -/

theorem strLt_irrefl (a : Str) : strLt a a = false := by
  induction a with
  | nil => rfl
  | cons x as ih => simp [strLt, lt_irrefl, ih]

theorem strLt_trans {a b c : Str} (hab : strLt a b = true) (hbc : strLt b c = true) :
    strLt a c = true := by
  induction a generalizing b c with
  | nil =>
    cases b with
    | nil => simp [strLt] at hab
    | cons y bs =>
      cases c with
      | nil => simp [strLt] at hbc
      | cons z cs => simp [strLt]
  | cons x as ih =>
    cases b with
    | nil => simp [strLt] at hab
    | cons y bs =>
      cases c with
      | nil => simp [strLt] at hbc
      | cons z cs =>
        by_cases h1 : x < y
        · by_cases h2 : y < z
          · simp [strLt, h1.trans h2]
          · by_cases h3 : z < y
            · simp [strLt, h2, h3] at hbc
            · have hyz : y = z := le_antisymm (not_lt.mp h3) (not_lt.mp h2)
              subst hyz
              simp [strLt, h1]
        · by_cases h1' : y < x
          · simp [strLt, h1, h1'] at hab
          · have hxy : x = y := le_antisymm (not_lt.mp h1') (not_lt.mp h1)
            subst hxy
            simp only [strLt, lt_irrefl, if_false] at hab
            by_cases h2 : x < z
            · simp [strLt, h2]
            · by_cases h3 : z < x
              · simp [strLt, h2, h3] at hbc
              · have hxz : x = z := le_antisymm (not_lt.mp h3) (not_lt.mp h2)
                subst hxz
                simp only [strLt, lt_irrefl, if_false] at hbc ⊢
                exact ih hab hbc

theorem strLt_connex {a b : Str} (h : strLt a b = false) : a = b ∨ strLt b a = true := by
  induction a generalizing b with
  | nil =>
    cases b with
    | nil => exact Or.inl rfl
    | cons y bs => simp [strLt] at h
  | cons x as ih =>
    cases b with
    | nil => exact Or.inr rfl
    | cons y bs =>
      by_cases h1 : x < y
      · simp [strLt, h1] at h
      · by_cases h2 : y < x
        · exact Or.inr (by simp [strLt, h2])
        · have hxy : x = y := le_antisymm (not_lt.mp h2) (not_lt.mp h1)
          subst hxy
          simp only [strLt, lt_irrefl, if_false] at h
          rcases ih h with h' | h'
          · exact Or.inl (by rw [h'])
          · exact Or.inr (by simp [strLt, lt_irrefl, h'])

theorem foldlMax_mem (xs : List Str) : ∀ x : Str,
    xs.foldl (fun a b => if strLt a b then b else a) x ∈ x :: xs := by
  induction xs with
  | nil => intro x; simp
  | cons b bs ih =>
    intro x
    rw [List.foldl_cons]
    by_cases hb : strLt x b = true
    · rw [if_pos hb]
      rcases List.mem_cons.mp (ih b) with h' | h'
      · rw [h']
        exact List.mem_cons_of_mem _ (List.mem_cons_self _ _)
      · exact List.mem_cons_of_mem _ (List.mem_cons_of_mem _ h')
    · rw [if_neg hb]
      rcases List.mem_cons.mp (ih x) with h' | h'
      · rw [h']
        exact List.mem_cons_self _ _
      · exact List.mem_cons_of_mem _ (List.mem_cons_of_mem _ h')

theorem foldlMax_not_lt (xs : List Str) : ∀ x y : Str, y ∈ x :: xs →
    strLt (xs.foldl (fun a b => if strLt a b then b else a) x) y = false := by
  induction xs with
  | nil =>
    intro x y hy
    rcases List.mem_cons.mp hy with h | h
    · rw [h]
      exact strLt_irrefl _
    · cases h
  | cons b bs ih =>
    intro x y hy
    rw [List.foldl_cons]
    by_cases hb : strLt x b = true
    · rw [if_pos hb]
      rcases List.mem_cons.mp hy with h | h
      · rw [h]
        have hmb := ih b b (List.mem_cons_self _ _)
        cases hmx : strLt (bs.foldl (fun a b => if strLt a b then b else a) b) x with
        | false => rfl
        | true =>
          have h2 := strLt_trans hmx hb
          rw [hmb] at h2
          exact absurd h2 Bool.false_ne_true
      · exact ih b y h
    · have hb' : strLt x b = false := by simpa using hb
      rw [if_neg hb]
      rcases List.mem_cons.mp hy with h | h
      · rw [h]
        exact ih x x (List.mem_cons_self _ _)
      · rcases List.mem_cons.mp h with h' | h'
        · rw [h']
          have hmx := ih x x (List.mem_cons_self _ _)
          rcases strLt_connex hb' with he | hlt
          · rw [← he]
            exact hmx
          · cases hmy : strLt (bs.foldl (fun a b => if strLt a b then b else a) x) b with
            | false => rfl
            | true =>
              have h2 := strLt_trans hmy hlt
              rw [hmx] at h2
              exact absurd h2 Bool.false_ne_true
        · exact ih x y (List.mem_cons_of_mem _ h')

/-- Claim C3: the watermark resolver returns null when the snapshot is empty
or lacks a `journal_id` column, or when no `journal_id` value parses as an
ObjectId; when it returns a value, that value is one of the parsed
identities and is maximal in ObjectId (identity) order, not string order;
and whenever the snapshot is non-empty with a `journal_id` column and at
least one parseable value, a value is returned. -/
theorem watermark_resolves (snap : Frame) :
    ((snap.rows = [] ∨ snap.cols = [] ∨ S "journal_id" ∉ snap.cols ∨ parsedOids snap = []) →
        load_watermark_from_drive_excel snap = none) ∧
    (∀ w, load_watermark_from_drive_excel snap = some w →
        w ∈ parsedOids snap ∧ ∀ o ∈ parsedOids snap, strLt w o = false) ∧
    (snap.rows ≠ [] → snap.cols ≠ [] → S "journal_id" ∈ snap.cols → parsedOids snap ≠ [] →
        ∃ w, load_watermark_from_drive_excel snap = some w) := by
  refine ⟨?_, ?_, ?_⟩
  · intro h
    unfold load_watermark_from_drive_excel
    rcases h with h | h | h | h
    · rw [if_pos (Or.inl h)]
    · rw [if_pos (Or.inr h)]
    · by_cases he : snap.rows = [] ∨ snap.cols = []
      · rw [if_pos he]
      · rw [if_neg he, if_pos h]
    · by_cases he : snap.rows = [] ∨ snap.cols = []
      · rw [if_pos he]
      · by_cases hj : S "journal_id" ∉ snap.cols
        · rw [if_neg he, if_pos hj]
        · rw [if_neg he, if_neg hj, h]
  · intro w hw
    unfold load_watermark_from_drive_excel at hw
    by_cases he : snap.rows = [] ∨ snap.cols = []
    · rw [if_pos he] at hw; cases hw
    · rw [if_neg he] at hw
      by_cases hj : S "journal_id" ∉ snap.cols
      · rw [if_pos hj] at hw; cases hw
      · rw [if_neg hj] at hw
        cases hp : parsedOids snap with
        | nil => rw [hp] at hw; cases hw
        | cons x xs =>
          rw [hp] at hw
          cases hw
          exact ⟨foldlMax_mem xs x, fun o ho => foldlMax_not_lt xs x o ho⟩
  · intro h1 h2 h3 h4
    unfold load_watermark_from_drive_excel
    rw [if_neg (by simp [h1, h2]), if_neg (by simp [h3])]
    cases hp : parsedOids snap with
    | nil => exact absurd hp h4
    | cons x xs => exact ⟨_, rfl⟩

/-- Witness for C3 at the spec's own example: identities `…01`, `…03`, an
unparseable `"bad"`, `…02` resolve to `…03`, which is among the parsed
identities and maximal in identity order. -/
theorem watermark_resolves_witness :
    load_watermark_from_drive_excel exSnap = some (S "000000000000000000000003") ∧
    S "000000000000000000000003" ∈ parsedOids exSnap ∧
    (∀ o ∈ parsedOids exSnap, strLt (S "000000000000000000000003") o = false) :=
  ⟨rfl,
   ((watermark_resolves exSnap).2.1 (S "000000000000000000000003") rfl).1,
   ((watermark_resolves exSnap).2.1 (S "000000000000000000000003") rfl).2⟩

/-! ## De-duplication lemmas -/

theorem dedupLast_sublist (l : List Row) : (dedupLast l).Sublist l := by
  induction l with
  | nil => exact List.Sublist.refl _
  | cons r rs ih =>
    simp only [dedupLast]
    by_cases h : rs.any (fun x => decide (keyJ x = keyJ r)) = true
    · rw [if_pos h]
      exact ih.trans (List.sublist_cons_self r rs)
    · rw [if_neg h]
      exact ih.cons₂ r

theorem mem_dedupLast {r : Row} {l : List Row} (h : r ∈ dedupLast l) : r ∈ l :=
  (dedupLast_sublist l).mem h

theorem dedupLast_pairwise (l : List Row) :
    (dedupLast l).Pairwise (fun a b => keyJ a ≠ keyJ b) := by
  induction l with
  | nil => exact List.Pairwise.nil
  | cons r rs ih =>
    simp only [dedupLast]
    by_cases h : rs.any (fun x => decide (keyJ x = keyJ r)) = true
    · rw [if_pos h]
      exact ih
    · rw [if_neg h]
      refine List.pairwise_cons.mpr ⟨?_, ih⟩
      intro b hb
      have hany : rs.any (fun x => decide (keyJ x = keyJ r)) = false :=
        Bool.eq_false_iff.mpr h
      have hno := List.any_eq_false.mp hany
      intro he
      exact hno b (mem_dedupLast hb) (by simp [he])

theorem dedupLast_eq_self {l : List Row}
    (h : l.Pairwise (fun a b => keyJ a ≠ keyJ b)) : dedupLast l = l := by
  induction l with
  | nil => rfl
  | cons r rs ih =>
    rcases List.pairwise_cons.mp h with ⟨h1, h2⟩
    have hany : rs.any (fun x => decide (keyJ x = keyJ r)) = false := by
      rw [List.any_eq_false]
      intro x hx
      simp only [decide_eq_true_iff]
      exact fun he => h1 x hx he.symm
    simp only [dedupLast]
    rw [if_neg (fun hh => Bool.false_ne_true (hany ▸ hh)), ih h2]

theorem filter_dedupLast (j : Val) (l : List Row) :
    (dedupLast l).filter (fun r => decide (keyJ r = j)) =
      ((l.filter (fun r => decide (keyJ r = j))).getLast?).toList := by
  induction l with
  | nil => rfl
  | cons r rs ih =>
    simp only [dedupLast]
    by_cases h : rs.any (fun x => decide (keyJ x = keyJ r)) = true
    · rw [if_pos h, ih]
      by_cases hj : keyJ r = j
      · have hne : rs.filter (fun r => decide (keyJ r = j)) ≠ [] := by
          rcases List.any_eq_true.mp h with ⟨x, hx, hxk⟩
          have hxj : keyJ x = j := (decide_eq_true_iff.mp hxk).trans hj
          intro hnil
          have hmem : x ∈ rs.filter (fun r => decide (keyJ r = j)) :=
            List.mem_filter.mpr ⟨hx, decide_eq_true hxj⟩
          rw [hnil] at hmem
          cases hmem
        simp only [List.filter_cons, decide_eq_true hj, if_true]
        rw [show r :: rs.filter (fun r => decide (keyJ r = j))
              = [r] ++ rs.filter (fun r => decide (keyJ r = j)) from rfl,
            List.getLast?_append_of_ne_nil _ hne]
      · simp only [List.filter_cons, decide_eq_false hj, Bool.false_eq_true, if_false]
    · rw [if_neg h]
      have hany : rs.any (fun x => decide (keyJ x = keyJ r)) = false :=
        Bool.eq_false_iff.mpr h
      have hno := List.any_eq_false.mp hany
      by_cases hj : keyJ r = j
      · have hfe : rs.filter (fun r => decide (keyJ r = j)) = [] := by
          rw [List.filter_eq_nil_iff]
          intro x hx
          simp only [decide_eq_true_iff]
          intro hk
          exact hno x hx (by simp [hk.trans hj.symm])
        simp only [List.filter_cons, decide_eq_true hj, if_true]
        rw [ih, hfe]
        rfl
      · simp only [List.filter_cons, decide_eq_false hj, Bool.false_eq_true, if_false]
        exact ih

/-! ## The output schema (C7) and row order (C10) -/

/-- Claim C7: whenever `clean` returns a frame, its header is exactly the 14
columns of `FINAL_COLS` in order, and every row carries exactly those keys in
that order — no column is absent, even for the empty batch. -/
theorem clean_output_schema (df F : Frame) (h : clean df = .ok F) :
    F.cols = FINAL_COLS ∧ ∀ r ∈ F.rows, r.map Prod.fst = FINAL_COLS := by
  unfold clean at h
  by_cases he : df.rows = [] ∨ df.cols = []
  · rw [if_pos he] at h
    cases h
    exact ⟨rfl, fun r hr => absurd hr (List.not_mem_nil r)⟩
  · rw [if_neg he] at h
    by_cases h1 : S "Timestamp" ∉ df.cols
    · rw [if_pos h1] at h
      cases h
    · rw [if_neg h1] at h
      by_cases h2 : S "End Date Time" ∉ df.cols
      · rw [if_pos h2] at h
        cases h
      · rw [if_neg h2] at h
        cases h
        refine ⟨rfl, fun r hr => ?_⟩
        rcases List.mem_map.mp (mem_dedupLast hr) with ⟨r₀, _, h₀⟩
        rw [← h₀]
        rfl

/-- Witness for C7: on a concrete sparse frame (no `journal_id` column),
`clean` succeeds and the output header is exactly `FINAL_COLS`. -/
theorem clean_output_schema_witness :
    ∃ F, clean sparseFrame = .ok F ∧ F.cols = FINAL_COLS :=
  ⟨_, rfl, (clean_output_schema sparseFrame _ rfl).1⟩

/-- Claim C10: the rows `clean` keeps appear in the output in their input
relative order (the output row list is a sublist of the transformed input
row list — no sorting), and each output row is the transform of the last
input occurrence of its `journal_id`. -/
theorem clean_preserves_order (df F : Frame) (h : clean df = .ok F) :
    F.rows.Sublist (df.rows.map (buildRow df.cols)) ∧
    ∀ r ∈ F.rows,
      ((df.rows.map (buildRow df.cols)).filter
          (fun x => decide (keyJ x = keyJ r))).getLast? = some r := by
  unfold clean at h
  by_cases he : df.rows = [] ∨ df.cols = []
  · rw [if_pos he] at h
    cases h
    exact ⟨List.nil_sublist _, fun r hr => absurd hr (List.not_mem_nil r)⟩
  · rw [if_neg he] at h
    by_cases h1 : S "Timestamp" ∉ df.cols
    · rw [if_pos h1] at h
      cases h
    · rw [if_neg h1] at h
      by_cases h2 : S "End Date Time" ∉ df.cols
      · rw [if_pos h2] at h
        cases h
      · rw [if_neg h2] at h
        cases h
        refine ⟨dedupLast_sublist _, fun r hr => ?_⟩
        have hfd := filter_dedupLast (keyJ r) (df.rows.map (buildRow df.cols))
        have hrf : r ∈ (dedupLast (df.rows.map (buildRow df.cols))).filter
            (fun x => decide (keyJ x = keyJ r)) :=
          List.mem_filter.mpr ⟨hr, decide_eq_true rfl⟩
        rw [hfd] at hrf
        cases hgl : ((df.rows.map (buildRow df.cols)).filter
            (fun x => decide (keyJ x = keyJ r))).getLast? with
        | none =>
          rw [hgl] at hrf
          cases hrf
        | some r' =>
          rw [hgl] at hrf
          have he' : r = r' := by simpa using hrf
          rw [he']

/-- Witness for C10 on a concrete frame with journal ids `a`, `b`, `a`: the
kept output rows form a sublist of the transformed input rows. -/
theorem clean_preserves_order_witness :
    ∃ F, clean dupFrame = .ok F ∧
      F.rows.Sublist (dupFrame.rows.map (buildRow dupFrame.cols)) :=
  ⟨_, rfl, (clean_preserves_order dupFrame _ rfl).1⟩

/-! ## Country non-interference (C9) -/

theorem buildRow_congr (cols : List Str) {r₁ r₂ : Row} (h : agreeOffCountry r₁ r₂) :
    buildRow cols r₁ = buildRow cols r₂ := by
  have hc : ∀ c : Str, c ≠ S "Country" →
      cellD cols r₁ c (.vstr []) = cellD cols r₂ c (.vstr []) := by
    intro c hcc
    unfold cellD
    rw [h c hcc]
  have hcn : ∀ c : Str, c ≠ S "Country" →
      cellD cols r₁ c .vnone = cellD cols r₂ c .vnone := by
    intro c hcc
    unfold cellD
    rw [h c hcc]
  unfold buildRow passV tsStr edtStr countryOf addrCheck addrSrc placeClean placeSrc stateStr locCStr latV lonV
  rw [hc (S "journal_id") (by decide), hc (S "User Name") (by decide),
      hc (S "User email") (by decide), hcn (S "Timestamp") (by decide),
      hcn (S "End Date Time") (by decide), hc (S "n_Name") (by decide),
      hc (S "City") (by decide), hc (S "State") (by decide), hc (S "Zip") (by decide),
      hc (S "Address") (by decide), hc (S "n_Place") (by decide),
      hc (S "LocCountry") (by decide), hcn (S "n_Lati") (by decide),
      hcn (S "n_Long") (by decide), hc (S "n_park_nbr") (by decide)]

theorem clean_congr (df₁ df₂ : Frame) (hc : df₁.cols = df₂.cols)
    (hl : df₁.rows = [] ↔ df₂.rows = [])
    (hm : df₁.rows.map (buildRow df₂.cols) = df₂.rows.map (buildRow df₂.cols)) :
    clean df₁ = clean df₂ := by
  unfold clean
  by_cases hA : df₁.rows = [] ∨ df₁.cols = []
  · have hA₂ : df₂.rows = [] ∨ df₂.cols = [] := by
      rcases hA with h' | h'
      · exact Or.inl (hl.mp h')
      · exact Or.inr (hc ▸ h')
    rw [if_pos hA, if_pos hA₂]
  · have hA₂ : ¬(df₂.rows = [] ∨ df₂.cols = []) := by
      intro hh
      apply hA
      rcases hh with h' | h'
      · exact Or.inl (hl.mpr h')
      · exact Or.inr (hc ▸ h')
    rw [if_neg hA, if_neg hA₂, hc, hm]

/-- Claim C9: `clean` never reads the `Country` column of its input — on two
batches with the same columns whose rows agree cell-by-cell everywhere
except possibly at `Country`, `clean` returns identical outputs, because
`Country` is unconditionally recomputed. -/
theorem clean_country_noninterference (cols : List Str) (rows₁ rows₂ : List Row)
    (h : List.Forall₂ agreeOffCountry rows₁ rows₂) :
    clean ⟨cols, rows₁⟩ = clean ⟨cols, rows₂⟩ := by
  have hmap : rows₁.map (buildRow cols) = rows₂.map (buildRow cols) := by
    induction h with
    | nil => rfl
    | cons hab hrest ih => simp only [List.map_cons, buildRow_congr cols hab, ih]
  refine clean_congr _ _ rfl ?_ hmap
  show rows₁ = [] ↔ rows₂ = []
  constructor
  · intro hh
    have := h.length_eq
    rw [hh] at this
    exact List.length_eq_zero.mp this.symm
  · intro hh
    have := h.length_eq
    rw [hh] at this
    exact List.length_eq_zero.mp this

/-- Witness for C9: two one-row batches that differ exactly in the `Country`
cell (`"X"` versus `"Y"`) clean to the same output. -/
theorem clean_country_noninterference_witness :
    clean ⟨ctryCols, [rowCtryX]⟩ = clean ⟨ctryCols, [rowCtryY]⟩ ∧ rowCtryX ≠ rowCtryY :=
  ⟨clean_country_noninterference ctryCols [rowCtryX] [rowCtryY]
    (List.Forall₂.cons
      (by
        intro c hcc
        by_cases hj : S "journal_id" = c
        · simp [rowCtryX, rowCtryY, cellR, hj]
        · have hcy : ¬(S "Country" = c) := fun hh => hcc hh.symm
          simp [rowCtryX, rowCtryY, cellR, hj, hcy])
      List.Forall₂.nil),
   by decide⟩

/-! ## Totality of `clean` (C6) -/

theorem roundV_toNumericV_shape (v : Val) :
    roundV (toNumericV v) = .vnone ∨ ∃ q, roundV (toNumericV v) = .vnum q := by
  cases v with
  | vnone => exact Or.inl rfl
  | vnum q => exact Or.inr ⟨round6 q, rfl⟩
  | vdt s => exact Or.inl rfl
  | vstr s =>
    cases hp : parseNum s with
    | none => exact Or.inl (by simp [toNumericV, roundV, hp])
    | some q => exact Or.inr ⟨round6 q, by simp [toNumericV, roundV, hp]⟩

theorem cellR_buildRow_jid (cols : List Str) (r : Row) :
    cellR (buildRow cols r) (S "journal_id") = passV cols r (S "journal_id") := rfl

theorem cellR_buildRow_uname (cols : List Str) (r : Row) :
    cellR (buildRow cols r) (S "User Name") = passV cols r (S "User Name") := rfl

theorem cellR_buildRow_uemail (cols : List Str) (r : Row) :
    cellR (buildRow cols r) (S "User email") = passV cols r (S "User email") := rfl

theorem cellR_buildRow_ts (cols : List Str) (r : Row) :
    cellR (buildRow cols r) (S "Timestamp") = .vstr (tsStr cols r) := rfl

theorem cellR_buildRow_edt (cols : List Str) (r : Row) :
    cellR (buildRow cols r) (S "End Date Time") = .vstr (edtStr cols r) := rfl

theorem cellR_buildRow_nname (cols : List Str) (r : Row) :
    cellR (buildRow cols r) (S "n_Name") = passV cols r (S "n_Name") := rfl

theorem cellR_buildRow_city (cols : List Str) (r : Row) :
    cellR (buildRow cols r) (S "City") = passV cols r (S "City") := rfl

theorem cellR_buildRow_state (cols : List Str) (r : Row) :
    cellR (buildRow cols r) (S "State") = passV cols r (S "State") := rfl

theorem cellR_buildRow_zip (cols : List Str) (r : Row) :
    cellR (buildRow cols r) (S "Zip") = passV cols r (S "Zip") := rfl

theorem cellR_buildRow_country (cols : List Str) (r : Row) :
    cellR (buildRow cols r) (S "Country") = .vstr (countryOf cols r) := rfl

theorem cellR_buildRow_place (cols : List Str) (r : Row) :
    cellR (buildRow cols r) (S "n_Place") = .vstr (placeClean cols r) := rfl

theorem cellR_buildRow_lati (cols : List Str) (r : Row) :
    cellR (buildRow cols r) (S "n_Lati") = latV cols r := rfl

theorem cellR_buildRow_long (cols : List Str) (r : Row) :
    cellR (buildRow cols r) (S "n_Long") = lonV cols r := rfl

theorem cellR_buildRow_park (cols : List Str) (r : Row) :
    cellR (buildRow cols r) (S "n_park_nbr") = passV cols r (S "n_park_nbr") := rfl

/-- Counterexample to C6 as stated: `clean` is *not* total.  On a concrete
non-empty batch that lacks a `Timestamp` column it raises (`df["Timestamp"]`
at source line 210 is a direct indexing and throws `KeyError`), modelled as
`Except.error` naming the missing key. -/
theorem clean_not_total_counterexample :
    clean noTsFrame = .error (S "Timestamp") := rfl

/-- Claim C6 as amended: `clean` never fails provided the batch is empty or
has both `Timestamp` and `End Date Time` columns.  Then any other missing
column is tolerated: passed-through columns absent from the input default to
the empty string, and the coordinate columns always come out null or
numeric (unparseable values are coerced to null). -/
theorem clean_total_amended (df : Frame)
    (h : df.rows = [] ∨ df.cols = [] ∨
        (S "Timestamp" ∈ df.cols ∧ S "End Date Time" ∈ df.cols)) :
    ∃ F, clean df = .ok F ∧
      ∀ r ∈ F.rows,
        (∀ c ∈ passCols, c ∉ df.cols → cellR r c = .vstr []) ∧
        (cellR r (S "n_Lati") = .vnone ∨ ∃ q, cellR r (S "n_Lati") = .vnum q) ∧
        (cellR r (S "n_Long") = .vnone ∨ ∃ q, cellR r (S "n_Long") = .vnum q) := by
  unfold clean
  by_cases he : df.rows = [] ∨ df.cols = []
  · rw [if_pos he]
    exact ⟨_, rfl, fun r hr => absurd hr (List.not_mem_nil r)⟩
  · have hts : S "Timestamp" ∈ df.cols ∧ S "End Date Time" ∈ df.cols := by
      rcases h with h' | h' | h'
      · exact absurd (Or.inl h') he
      · exact absurd (Or.inr h') he
      · exact h'
    rw [if_neg he, if_neg (by simp [hts.1]), if_neg (by simp [hts.2])]
    refine ⟨_, rfl, fun r hr => ?_⟩
    rcases List.mem_map.mp (mem_dedupLast hr) with ⟨r₀, _, h₀⟩
    subst h₀
    refine ⟨?_, ?_, ?_⟩
    · intro c hc hnc
      have hc' : c = S "journal_id" ∨ c = S "User Name" ∨ c = S "User email" ∨
          c = S "n_Name" ∨ c = S "City" ∨ c = S "State" ∨ c = S "Zip" ∨
          c = S "n_park_nbr" := by simpa [passCols] using hc
      rcases hc' with rfl | rfl | rfl | rfl | rfl | rfl | rfl | rfl
      · rw [cellR_buildRow_jid]
        unfold passV cellD
        rw [if_neg hnc]
      · rw [cellR_buildRow_uname]
        unfold passV cellD
        rw [if_neg hnc]
      · rw [cellR_buildRow_uemail]
        unfold passV cellD
        rw [if_neg hnc]
      · rw [cellR_buildRow_nname]
        unfold passV cellD
        rw [if_neg hnc]
      · rw [cellR_buildRow_city]
        unfold passV cellD
        rw [if_neg hnc]
      · rw [cellR_buildRow_state]
        unfold passV cellD
        rw [if_neg hnc]
      · rw [cellR_buildRow_zip]
        unfold passV cellD
        rw [if_neg hnc]
      · rw [cellR_buildRow_park]
        unfold passV cellD
        rw [if_neg hnc]
    · rw [cellR_buildRow_lati]
      exact roundV_toNumericV_shape _
    · rw [cellR_buildRow_long]
      exact roundV_toNumericV_shape _

/-- Witness for C6 (amended) on a concrete sparse frame with an unparseable
coordinate and several absent columns. -/
theorem clean_total_amended_witness :
    ∃ F, clean sparseFrame = .ok F ∧
      ∀ r ∈ F.rows,
        (∀ c ∈ passCols, c ∉ sparseFrame.cols → cellR r c = .vstr []) ∧
        (cellR r (S "n_Lati") = .vnone ∨ ∃ q, cellR r (S "n_Lati") = .vnum q) ∧
        (cellR r (S "n_Long") = .vnone ∨ ∃ q, cellR r (S "n_Long") = .vnum q) :=
  clean_total_amended sparseFrame (Or.inr (Or.inr (by decide)))

/-! ## Stability of the string and numeric normalizations -/

theorem dropWhile_dropWhile (p : Char → Bool) (l : List Char) :
    (l.dropWhile p).dropWhile p = l.dropWhile p := by
  induction l with
  | nil => rfl
  | cons a t ih =>
    cases h : p a with
    | true => simpa [List.dropWhile_cons, h] using ih
    | false => simp [List.dropWhile_cons, h]

theorem head_dropWhile_false (p : Char → Bool) (l : List Char) :
    ∀ c ∈ (l.dropWhile p).head?, p c = false := by
  induction l with
  | nil => intro c hc; cases hc
  | cons a t ih =>
    cases h : p a with
    | true => simpa [List.dropWhile_cons, h] using ih
    | false =>
      intro c hc
      rw [List.dropWhile_cons, if_neg (by simp [h])] at hc
      have hca : a = c := by simpa using hc
      rw [← hca, h]

theorem dropWhile_eq_self_of_head (p : Char → Bool) (l : List Char)
    (h : ∀ c ∈ l.head?, p c = false) : l.dropWhile p = l := by
  cases l with
  | nil => rfl
  | cons a t =>
    have ha : p a = false := h a rfl
    rw [List.dropWhile_cons, if_neg (by simp [ha])]

theorem takeWhile_nil_of_head (p : Char → Bool) (l : List Char)
    (h : ∀ c ∈ l.head?, p c = false) : l.takeWhile p = [] := by
  cases l with
  | nil => rfl
  | cons a t =>
    have ha : p a = false := h a rfl
    rw [List.takeWhile_cons, if_neg (by simp [ha])]

theorem head_of_le {v u : List Char} (h : v <+: u) (c : Char)
    (hc : v.head? = some c) : u.head? = some c := by
  rcases h with ⟨t, rfl⟩
  cases v with
  | nil => cases hc
  | cons a v' =>
    cases hc
    rfl

theorem strip_strip (p : Char → Bool) (s : List Char) :
    (((((((s.dropWhile p).reverse.dropWhile p).reverse).dropWhile p).reverse).dropWhile p).reverse)
      = ((s.dropWhile p).reverse.dropWhile p).reverse := by
  have hpre : (((s.dropWhile p).reverse.dropWhile p).reverse) <+: s.dropWhile p := by
    have h1 := List.reverse_prefix.mpr (List.dropWhile_suffix (l := (s.dropWhile p).reverse) p)
    rwa [List.reverse_reverse] at h1
  have hA : (((s.dropWhile p).reverse.dropWhile p).reverse).dropWhile p
      = ((s.dropWhile p).reverse.dropWhile p).reverse := by
    apply dropWhile_eq_self_of_head
    intro c hc
    exact head_dropWhile_false p s c (head_of_le hpre c hc)
  rw [hA, List.reverse_reverse, dropWhile_dropWhile]

theorem stripSC_stripSC (s : Str) : stripSC (stripSC s) = stripSC s :=
  strip_strip isSC s

theorem chain_ws_reverse {l : List Char}
    (h : List.Chain' (fun a b => (isWs a && isWs b) = false) l) :
    List.Chain' (fun a b => (isWs a && isWs b) = false) l.reverse := by
  rw [List.chain'_reverse]
  exact List.Chain'.imp (fun a b hab => by rwa [Bool.and_comm] at hab) h

theorem collapseWs_cons_nonws {c : Char} {cs : List Char} (h : isWs c = false) :
    collapseWs (c :: cs) = c :: collapseWs cs := by
  unfold collapseWs
  simp only [collapseAcc, h]
  rw [if_neg (by simp [h])]

theorem collapseAcc_chain (s : Str) : ∀ st : Option (Char × Bool),
    List.Chain' (fun a b => (isWs a && isWs b) = false) (collapseAcc st s) := by
  induction s with
  | nil =>
    intro st
    match st with
    | none => exact trivial
    | some (c, false) => exact List.chain'_singleton c
    | some (c, true) => exact List.chain'_singleton _
  | cons c cs ih =>
    intro st
    match st with
    | none =>
      cases h : isWs c with
      | true =>
        simp only [collapseAcc, h, if_true]
        exact ih _
      | false =>
        simp only [collapseAcc, h, Bool.false_eq_true, if_false]
        rw [List.chain'_cons']
        refine ⟨fun y _ => by rw [h]; simp, ih none⟩
    | some (p, false) =>
      cases h : isWs c with
      | true =>
        simp only [collapseAcc, h, if_true]
        exact ih _
      | false =>
        simp only [collapseAcc, h, Bool.false_eq_true, if_false]
        rw [List.chain'_cons', List.chain'_cons']
        exact ⟨fun y hy => by simp [h] at hy ⊢; rw [← hy, h]; simp,
          fun y _ => by rw [h]; simp, ih none⟩
    | some (p, true) =>
      cases h : isWs c with
      | true =>
        simp only [collapseAcc, h, if_true]
        exact ih _
      | false =>
        simp only [collapseAcc, h, Bool.false_eq_true, if_false]
        rw [List.chain'_cons', List.chain'_cons']
        exact ⟨fun y hy => by simp [h] at hy ⊢; rw [← hy, h]; simp,
          fun y _ => by rw [h]; simp, ih none⟩

theorem collapseWs_chain (s : Str) :
    List.Chain' (fun a b => (isWs a && isWs b) = false) (collapseWs s) :=
  collapseAcc_chain s none

theorem collapseAcc_of_chain : ∀ s : Str,
    List.Chain' (fun a b => (isWs a && isWs b) = false) s →
    collapseAcc none s = s ∧
      (∀ p : Char, (∀ y ∈ s.head?, isWs y = false) → collapseAcc (some (p, false)) s = p :: s) := by
  intro s
  induction s with
  | nil => exact fun _ => ⟨rfl, fun p _ => rfl⟩
  | cons c cs ih =>
    intro h
    have htail := ih ((List.chain'_cons'.mp h).2)
    have hlink := (List.chain'_cons'.mp h).1
    constructor
    · cases hW : isWs c with
      | true =>
        simp only [collapseAcc, hW, if_true]
        refine htail.2 c ?_
        intro y hy
        have := hlink y hy
        rwa [hW, Bool.true_and] at this
      | false =>
        simp only [collapseAcc, hW, Bool.false_eq_true, if_false]
        rw [htail.1]
    · intro p hp
      have hW : isWs c = false := hp c rfl
      simp only [collapseAcc, hW, Bool.false_eq_true, if_false]
      rw [htail.1]

theorem collapseWs_of_chain {s : Str}
    (h : List.Chain' (fun a b => (isWs a && isWs b) = false) s) :
    collapseWs s = s :=
  (collapseAcc_of_chain s h).1

theorem placeClean_idem (s : Str) :
    stripSC (collapseWs (stripSC (collapseWs s))) = stripSC (collapseWs s) := by
  have h2 : List.Chain' (fun a b => (isWs a && isWs b) = false) (stripSC (collapseWs s)) := by
    unfold stripSC
    exact chain_ws_reverse
      (((chain_ws_reverse ((collapseWs_chain s).suffix (List.dropWhile_suffix isSC))).suffix
          (List.dropWhile_suffix isSC)))
  rw [collapseWs_of_chain h2]
  exact stripSC_stripSC (collapseWs s)

theorem round6_round6 (q : ℚ) : round6 (round6 q) = round6 q := by
  have h : ((round (q * 1000000) : ℤ) : ℚ) / 1000000 * 1000000
      = ((round (q * 1000000) : ℤ) : ℚ) := div_mul_cancel₀ _ (by norm_num)
  unfold round6
  rw [h, round_intCast]

theorem roundNum_stable (v : Val) :
    roundV (toNumericV (roundV (toNumericV v))) = roundV (toNumericV v) := by
  cases v with
  | vnone => rfl
  | vdt s => rfl
  | vnum q => simp [toNumericV, roundV, round6_round6]
  | vstr s =>
    cases hp : parseNum s with
    | none => simp [toNumericV, roundV, hp]
    | some q => simp [toNumericV, roundV, hp, round6_round6]

/-! ## A second pass of `clean` changes only `Country` -/

theorem cellR_cons (k : Str) (v : Val) (t : Row) (c : Str) :
    cellR ((k, v) :: t) c = if k = c then v else cellR t c := rfl

theorem assoc_ext : ∀ {r₁ r₂ : Row}, r₁.map Prod.fst = r₂.map Prod.fst →
    (r₁.map Prod.fst).Nodup → (∀ c ∈ r₁.map Prod.fst, cellR r₁ c = cellR r₂ c) →
    r₁ = r₂ := by
  intro r₁
  induction r₁ with
  | nil =>
    intro r₂ hk _ _
    cases r₂ with
    | nil => rfl
    | cons q t₂ => simp at hk
  | cons p t₁ ih =>
    intro r₂ hk hnd hv
    cases r₂ with
    | nil => simp at hk
    | cons q t₂ =>
      obtain ⟨k, v⟩ := p
      obtain ⟨k', v'⟩ := q
      simp only [List.map_cons, List.cons.injEq] at hk
      obtain ⟨hkk, htk⟩ := hk
      subst hkk
      have hval : v = v' := by
        have h := hv k (by rw [List.map_cons]; exact List.mem_cons_self _ _)
        rw [cellR_cons, cellR_cons, if_pos rfl, if_pos rfl] at h
        exact h
      subst hval
      have hnd' := List.nodup_cons.mp (by rw [List.map_cons] at hnd; exact hnd)
      have ht : t₁ = t₂ := by
        apply ih htk hnd'.2
        intro c hc
        have hck : k ≠ c := fun he => hnd'.1 (he ▸ hc)
        have h := hv c (by rw [List.map_cons]; exact List.mem_cons_of_mem _ hc)
        rw [cellR_cons, cellR_cons, if_neg hck, if_neg hck] at h
        exact h
      rw [ht]

theorem buildRow_keys (cols : List Str) (r : Row) :
    (buildRow cols r).map Prod.fst = FINAL_COLS := rfl

theorem recountry_keys (r : Row) : (recountry r).map Prod.fst = FINAL_COLS := rfl

theorem finalCols_nodup : FINAL_COLS.Nodup := by decide

theorem passV_final (r : Row) (c : Str) (h : c ∈ FINAL_COLS) :
    passV FINAL_COLS r c = cellR r c := by
  unfold passV cellD
  rw [if_pos h]

theorem cellR_recountry_jid (r : Row) :
    cellR (recountry r) (S "journal_id") = cellR r (S "journal_id") := rfl

theorem cellR_recountry_uname (r : Row) :
    cellR (recountry r) (S "User Name") = cellR r (S "User Name") := rfl

theorem cellR_recountry_uemail (r : Row) :
    cellR (recountry r) (S "User email") = cellR r (S "User email") := rfl

theorem cellR_recountry_ts (r : Row) :
    cellR (recountry r) (S "Timestamp") = cellR r (S "Timestamp") := rfl

theorem cellR_recountry_edt (r : Row) :
    cellR (recountry r) (S "End Date Time") = cellR r (S "End Date Time") := rfl

theorem cellR_recountry_nname (r : Row) :
    cellR (recountry r) (S "n_Name") = cellR r (S "n_Name") := rfl

theorem cellR_recountry_city (r : Row) :
    cellR (recountry r) (S "City") = cellR r (S "City") := rfl

theorem cellR_recountry_state (r : Row) :
    cellR (recountry r) (S "State") = cellR r (S "State") := rfl

theorem cellR_recountry_zip (r : Row) :
    cellR (recountry r) (S "Zip") = cellR r (S "Zip") := rfl

theorem cellR_recountry_country (r : Row) :
    cellR (recountry r) (S "Country")
      = .vstr (decide_country (pyStrOfVal (cellR r (S "n_Place")))
          (pyStrOfVal (cellR r (S "State"))) []) := rfl

theorem cellR_recountry_place (r : Row) :
    cellR (recountry r) (S "n_Place") = cellR r (S "n_Place") := rfl

theorem cellR_recountry_lati (r : Row) :
    cellR (recountry r) (S "n_Lati") = cellR r (S "n_Lati") := rfl

theorem cellR_recountry_long (r : Row) :
    cellR (recountry r) (S "n_Long") = cellR r (S "n_Long") := rfl

theorem cellR_recountry_park (r : Row) :
    cellR (recountry r) (S "n_park_nbr") = cellR r (S "n_park_nbr") := rfl

theorem tsStr_buildRow (cols : List Str) (r : Row) :
    tsStr FINAL_COLS (buildRow cols r) = tsStr cols r := rfl

theorem edtStr_buildRow (cols : List Str) (r : Row) :
    edtStr FINAL_COLS (buildRow cols r) = edtStr cols r := rfl

theorem countryOf_buildRow (cols : List Str) (r : Row) :
    countryOf FINAL_COLS (buildRow cols r)
      = decide_country (pyStrOfVal (cellR (buildRow cols r) (S "n_Place")))
          (pyStrOfVal (cellR (buildRow cols r) (S "State"))) [] := rfl

theorem placeClean_buildRow (cols : List Str) (r : Row) :
    placeClean FINAL_COLS (buildRow cols r) = placeClean cols r := by
  show stripSC (collapseWs (placeSrc FINAL_COLS (buildRow cols r))) = placeClean cols r
  rw [show placeSrc FINAL_COLS (buildRow cols r) = placeClean cols r from rfl]
  exact placeClean_idem (placeSrc cols r)

theorem latV_buildRow (cols : List Str) (r : Row) :
    latV FINAL_COLS (buildRow cols r) = latV cols r := by
  show roundV (toNumericV (cellD FINAL_COLS (buildRow cols r) (S "n_Lati") .vnone))
      = latV cols r
  rw [show cellD FINAL_COLS (buildRow cols r) (S "n_Lati") .vnone = latV cols r from rfl]
  exact roundNum_stable (cellD cols r (S "n_Lati") .vnone)

theorem lonV_buildRow (cols : List Str) (r : Row) :
    lonV FINAL_COLS (buildRow cols r) = lonV cols r := by
  show roundV (toNumericV (cellD FINAL_COLS (buildRow cols r) (S "n_Long") .vnone))
      = lonV cols r
  rw [show cellD FINAL_COLS (buildRow cols r) (S "n_Long") .vnone = lonV cols r from rfl]
  exact roundNum_stable (cellD cols r (S "n_Long") .vnone)

theorem buildRow_stable (cols : List Str) (r : Row) :
    buildRow FINAL_COLS (buildRow cols r) = recountry (buildRow cols r) := by
  apply assoc_ext (by rw [buildRow_keys, recountry_keys])
    (by rw [buildRow_keys]; exact finalCols_nodup)
  intro c hc
  rw [buildRow_keys] at hc
  simp only [FINAL_COLS, List.mem_cons, List.not_mem_nil, or_false] at hc
  rcases hc with rfl | rfl | rfl | rfl | rfl | rfl | rfl | rfl | rfl | rfl | rfl | rfl | rfl | rfl
  · rw [cellR_buildRow_jid, cellR_recountry_jid, passV_final _ _ (by decide)]
  · rw [cellR_buildRow_uname, cellR_recountry_uname, passV_final _ _ (by decide)]
  · rw [cellR_buildRow_uemail, cellR_recountry_uemail, passV_final _ _ (by decide)]
  · rw [cellR_buildRow_ts, cellR_recountry_ts, cellR_buildRow_ts, tsStr_buildRow]
  · rw [cellR_buildRow_edt, cellR_recountry_edt, cellR_buildRow_edt, edtStr_buildRow]
  · rw [cellR_buildRow_nname, cellR_recountry_nname, passV_final _ _ (by decide)]
  · rw [cellR_buildRow_city, cellR_recountry_city, passV_final _ _ (by decide)]
  · rw [cellR_buildRow_state, cellR_recountry_state, passV_final _ _ (by decide)]
  · rw [cellR_buildRow_zip, cellR_recountry_zip, passV_final _ _ (by decide)]
  · rw [cellR_buildRow_country, cellR_recountry_country, countryOf_buildRow]
  · rw [cellR_buildRow_place, cellR_recountry_place, cellR_buildRow_place,
        placeClean_buildRow]
  · rw [cellR_buildRow_lati, cellR_recountry_lati, cellR_buildRow_lati, latV_buildRow]
  · rw [cellR_buildRow_long, cellR_recountry_long, cellR_buildRow_long, lonV_buildRow]
  · rw [cellR_buildRow_park, cellR_recountry_park, passV_final _ _ (by decide)]

theorem clean_rows_shape (df F : Frame) (h : clean df = .ok F) :
    ∀ r ∈ F.rows, ∃ r₀, r₀ ∈ df.rows ∧ r = buildRow df.cols r₀ := by
  unfold clean at h
  by_cases he : df.rows = [] ∨ df.cols = []
  · rw [if_pos he] at h
    cases h
    intro r hr
    exact absurd hr (List.not_mem_nil r)
  · rw [if_neg he] at h
    by_cases h1 : S "Timestamp" ∉ df.cols
    · rw [if_pos h1] at h
      cases h
    · rw [if_neg h1] at h
      by_cases h2 : S "End Date Time" ∉ df.cols
      · rw [if_pos h2] at h
        cases h
      · rw [if_neg h2] at h
        cases h
        intro r hr
        rcases List.mem_map.mp (mem_dedupLast hr) with ⟨r₀, hm, h₀⟩
        exact ⟨r₀, hm, h₀.symm⟩

theorem keyJ_recountry (r : Row) : keyJ (recountry r) = keyJ r := rfl

/-- Claim C2 as amended: a second application of `clean` is *not* the
identity — it returns the same rows in the same order with every cell
unchanged except `Country`, which is recomputed (by `recountry`) from the
cleaned `n_Place` and the `State` cell with an empty explicit country,
because the `Address` and `LocCountry` auxiliary columns are not part of
`clean`'s output. -/
theorem clean_clean_recountry (df F : Frame) (h : clean df = .ok F) :
    clean F = .ok ⟨FINAL_COLS, F.rows.map recountry⟩ := by
  unfold clean at h
  by_cases he : df.rows = [] ∨ df.cols = []
  · rw [if_pos he] at h
    cases h
    unfold clean
    rw [if_pos (Or.inl rfl)]
    rfl
  · rw [if_neg he] at h
    by_cases h1 : S "Timestamp" ∉ df.cols
    · rw [if_pos h1] at h
      cases h
    · rw [if_neg h1] at h
      by_cases h2 : S "End Date Time" ∉ df.cols
      · rw [if_pos h2] at h
        cases h
      · rw [if_neg h2] at h
        cases h
        unfold clean
        by_cases hFe : dedupLast (df.rows.map (buildRow df.cols)) = []
        · rw [if_pos (Or.inl hFe), hFe]
          rfl
        · rw [if_neg (by
                rintro (hx | hx)
                · exact hFe hx
                · exact absurd hx (show ¬FINAL_COLS = [] by decide)),
              if_neg (fun hx => hx (show S "Timestamp" ∈ FINAL_COLS by decide)),
              if_neg (fun hx => hx (show S "End Date Time" ∈ FINAL_COLS by decide))]
          have hmap : (dedupLast (df.rows.map (buildRow df.cols))).map (buildRow FINAL_COLS)
              = (dedupLast (df.rows.map (buildRow df.cols))).map recountry := by
            apply List.map_congr_left
            intro r hr
            rcases List.mem_map.mp (mem_dedupLast hr) with ⟨r₀, _, h₀⟩
            rw [← h₀]
            exact buildRow_stable df.cols r₀
          rw [hmap]
          have hpw : ((dedupLast (df.rows.map (buildRow df.cols))).map recountry).Pairwise
              (fun a b => keyJ a ≠ keyJ b) := by
            rw [List.pairwise_map]
            exact (dedupLast_pairwise _).imp (fun hab => by
              rw [keyJ_recountry, keyJ_recountry]
              exact hab)
          rw [dedupLast_eq_self hpw]

/-- Counterexample to C2 as stated: `clean` is not idempotent.  A row whose
explicit location country is `"Canada"` cleans to `Country = "Canada"`, but
cleaning the cleaned batch again drops `Country` to `""`, because the
`LocCountry` column the first pass read no longer exists in the output. -/
theorem clean_not_idempotent_counterexample :
    clean rawCanada = .ok cleanedCanada ∧
    clean cleanedCanada = .ok ⟨FINAL_COLS, [rowCanadaRecleaned]⟩ ∧
    (⟨FINAL_COLS, [rowCanadaRecleaned]⟩ : Frame) ≠ cleanedCanada := by
  refine ⟨rfl, rfl, ?_⟩
  decide

/-- Witness for C2 (amended), instantiated on the cleaned `"Canada"` batch. -/
theorem clean_clean_recountry_witness :
    clean cleanedCanada = .ok ⟨FINAL_COLS, cleanedCanada.rows.map recountry⟩ :=
  clean_clean_recountry rawCanada cleanedCanada rfl

/-! ## Merge favors the newest fetch (C1) -/

theorem concatF_final (E N : Frame) (hE : E.cols = FINAL_COLS) (hN : N.cols = FINAL_COLS) :
    concatF E N = ⟨FINAL_COLS, E.rows ++ N.rows⟩ := by
  unfold concatF
  rw [hE, hN]
  rfl

theorem getLast?_map_eq (f : Row → Row) (l : List Row) :
    (l.map f).getLast? = (l.getLast?).map f := by
  induction l with
  | nil => rfl
  | cons a t ih =>
    cases t with
    | nil => rfl
    | cons b t' =>
      rw [List.map_cons, List.map_cons, List.getLast?_cons_cons, ← List.map_cons,
          List.getLast?_cons_cons, ih]

theorem keyJ_buildRow_final (r : Row) : keyJ (buildRow FINAL_COLS r) = keyJ r := rfl

theorem clean_append_final (E N : Frame) (hE : E.cols = FINAL_COLS)
    (hN : N.cols = FINAL_COLS) (hEne : E.rows ≠ []) :
    clean (concatF E N)
      = .ok ⟨FINAL_COLS, dedupLast ((E.rows ++ N.rows).map (buildRow FINAL_COLS))⟩ := by
  rw [concatF_final E N hE hN]
  unfold clean
  rw [if_neg (by
        rintro (hx | hx)
        · rcases List.append_eq_nil.mp hx with ⟨h1, _⟩
          exact hEne h1
        · exact absurd hx (show ¬FINAL_COLS = [] by decide)),
      if_neg (fun hx => hx (show S "Timestamp" ∈ FINAL_COLS by decide)),
      if_neg (fun hx => hx (show S "End Date Time" ∈ FINAL_COLS by decide))]

/-- Claim C1 as amended: when the fetch is non-empty, the run merges the
existing snapshot rows `E` before the cleaned new rows `N` and re-applies
`clean`, whose last-wins de-duplication resolves every `journal_id` present
in both in favor of `N` — but the surviving row is the *re-cleaned* version
of the last matching row of `N` (`recountry rN`): identical to that row of
`N` in every column except possibly `Country`, which is recomputed, since
the `Address`/`LocCountry` auxiliary data is gone after the first `clean`.
The uploaded frame contains exactly one row for that `journal_id`. -/
theorem merge_new_wins (df₀ E N : Frame) (j : Val) (rN : Row)
    (hfe : ¬(df₀.rows = [] ∨ df₀.cols = []))
    (hN : clean df₀ = .ok N)
    (hE : E.cols = FINAL_COLS)
    (hjE : ∃ r ∈ E.rows, keyJ r = j)
    (hrN : (N.rows.filter (fun r => decide (keyJ r = j))).getLast? = some rN) :
    ∃ out, run_once_core df₀ E = .ok (.uploaded out) ∧
      out.rows.filter (fun r => decide (keyJ r = j)) = [recountry rN] ∧
      out.cols = FINAL_COLS := by
  obtain ⟨rE, hrE, hkE⟩ := hjE
  have hEne : E.rows ≠ [] := by
    intro hh
    rw [hh] at hrE
    exact absurd hrE (List.not_mem_nil rE)
  have hNcols : N.cols = FINAL_COLS := (clean_output_schema df₀ N hN).1
  have hNfne : N.rows.filter (fun r => decide (keyJ r = j)) ≠ [] := by
    intro hh
    rw [hh] at hrN
    cases hrN
  have hrNmem : rN ∈ N.rows := by
    rcases List.mem_getLast?_eq_getLast (show rN ∈ (N.rows.filter
        (fun r => decide (keyJ r = j))).getLast? from hrN) with ⟨hne, hEq⟩
    rw [hEq]
    exact List.mem_of_mem_filter (List.getLast_mem hne)
  obtain ⟨r₀, _, hr₀⟩ := clean_rows_shape df₀ N hN rN hrNmem
  have hmerge := clean_append_final E N hE hNcols hEne
  have hpred : ((fun r => decide (keyJ r = j)) ∘ buildRow FINAL_COLS)
      = (fun r : Row => decide (keyJ r = j)) := rfl
  have hfilter : (dedupLast ((E.rows ++ N.rows).map (buildRow FINAL_COLS))).filter
      (fun r => decide (keyJ r = j)) = [recountry rN] := by
    have hmapne : (N.rows.map (buildRow FINAL_COLS)).filter
        (fun r => decide (keyJ r = j)) ≠ [] := by
      rw [List.filter_map, hpred]
      simp only [ne_eq, List.map_eq_nil_iff]
      exact hNfne
    rw [filter_dedupLast, List.map_append, List.filter_append,
        List.getLast?_append_of_ne_nil _ hmapne, List.filter_map, hpred,
        getLast?_map_eq, hrN]
    show [buildRow FINAL_COLS rN] = [recountry rN]
    rw [hr₀, buildRow_stable df₀.cols r₀]
  refine ⟨⟨FINAL_COLS, dedupLast ((E.rows ++ N.rows).map (buildRow FINAL_COLS))⟩,
    ?_, hfilter, rfl⟩
  unfold run_once_core
  rw [if_neg hfe, hN]
  show Except.bind (clean (if E.rows = [] ∨ E.cols = [] then N else concatF E N))
      (fun out => Except.ok (RunOutcome.uploaded out)) = _
  rw [if_neg (by
        rintro (hx | hx)
        · exact hEne hx
        · rw [hE] at hx
          exact absurd hx (show ¬FINAL_COLS = [] by decide)),
      hmerge]
  rfl

/-- Counterexample to C1 as stated: for a journal present in both the
existing snapshot and the newly fetched batch, the uploaded snapshot does
*not* contain exactly the row from the new batch.  The new `"Canada"` row
survives the dedup, but the second `clean` recomputes its `Country` to `""`,
so the uploaded row differs from the row of `N`. -/
theorem merge_new_wins_counterexample :
    clean rawCanada = .ok cleanedCanada ∧
    (∃ r ∈ exExisting.rows, keyJ r = keyJ rowCanada) ∧
    rowCanada ∈ cleanedCanada.rows ∧
    run_once_core rawCanada exExisting
      = .ok (.uploaded ⟨FINAL_COLS, [rowCanadaRecleaned]⟩) ∧
    keyJ rowCanadaRecleaned = keyJ rowCanada ∧
    rowCanadaRecleaned ≠ rowCanada := by
  refine ⟨rfl, ⟨[(S "journal_id", Val.vstr (S "j1"))], ?_, rfl⟩, ?_, rfl, rfl, ?_⟩
  · show _ ∈ [[(S "journal_id", Val.vstr (S "j1"))]]
    exact List.mem_cons_self _ _
  · show rowCanada ∈ [rowCanada]
    exact List.mem_cons_self _ _
  · decide

/-- Witness for C1 (amended) on the concrete `"Canada"` run: the merged
upload holds exactly one `"j1"` row, namely `recountry rowCanada`. -/
theorem merge_new_wins_witness :
    ∃ out, run_once_core rawCanada exExisting = .ok (.uploaded out) ∧
      out.rows.filter (fun r => decide (keyJ r = Val.vstr (S "j1"))) = [recountry rowCanada] ∧
      out.cols = FINAL_COLS :=
  merge_new_wins rawCanada exExisting cleanedCanada (Val.vstr (S "j1")) rowCanada
    (by decide) rfl rfl ⟨[(S "journal_id", Val.vstr (S "j1"))], List.mem_cons_self _ _, rfl⟩ rfl
